import Mathlib

/-!
Verification of the DS2Backup save-file backup manager (src/dsb.py).

The Python source is shallowly embedded: paths are plain strings (the final
file-name component; the backup directory is flat), the directory is an
ordered list of entries in filesystem enumeration order, `datetime` values
are records of numeric fields, and exceptions are an explicit error type
threaded through `Except`.
-/

namespace DSB

/-! ### Datetime model

Embeds the parts of Python `datetime` the program uses: `strftime` with the
fixed formats `%y%m%d%H%M%S` (on-disk) and `%Y/%m/%d %H:%M:%S` (display),
and `strptime` with the on-disk format.  `strptime` is modelled on
canonical fixed-width 12-digit inputs (CPython additionally accepts some
shorter variable-width matches; no claim depends on those). -/

structure DateTime where
  year : Nat
  month : Nat
  day : Nat
  hour : Nat
  minute : Nat
  second : Nat
  micro : Nat
  deriving DecidableEq, Repr

/-- Gregorian leap year, as `calendar.isleap` / `datetime` use it. -/
def isLeap (y : Nat) : Bool :=
  y % 4 == 0 && (y % 100 != 0 || y % 400 == 0)

def daysInMonth (y m : Nat) : Nat :=
  if m == 2 then (if isLeap y then 29 else 28)
  else if m == 4 || m == 6 || m == 9 || m == 11 then 30
  else 31

/-- Well-formedness of a `datetime` value (CPython field ranges). -/
def DateTime.Valid (t : DateTime) : Prop :=
  1 ≤ t.year ∧ t.year ≤ 9999 ∧
  1 ≤ t.month ∧ t.month ≤ 12 ∧
  1 ≤ t.day ∧ t.day ≤ daysInMonth t.year t.month ∧
  t.hour ≤ 23 ∧ t.minute ≤ 59 ∧ t.second ≤ 59 ∧
  t.micro < 1000000

instance (t : DateTime) : Decidable t.Valid := by
  unfold DateTime.Valid; infer_instance

/-- Truncation to whole seconds: what survives the on-disk format. -/
def DateTime.truncSec (t : DateTime) : DateTime :=
  { t with micro := 0 }

/-- Python `datetime` comparison (`t1 < t2`): lexicographic on the fields. -/
def chronoLt (t1 t2 : DateTime) : Prop :=
  t1.year < t2.year ∨ (t1.year = t2.year ∧
  (t1.month < t2.month ∨ (t1.month = t2.month ∧
  (t1.day < t2.day ∨ (t1.day = t2.day ∧
  (t1.hour < t2.hour ∨ (t1.hour = t2.hour ∧
  (t1.minute < t2.minute ∨ (t1.minute = t2.minute ∧
  (t1.second < t2.second ∨ (t1.second = t2.second ∧
  t1.micro < t2.micro)))))))))))

instance (t1 t2 : DateTime) : Decidable (chronoLt t1 t2) := by
  unfold chronoLt; infer_instance

/-- Zero-padded two-digit decimal rendering (a `%y`/`%m`/... field). -/
def pad2 (n : Nat) : String :=
  ⟨[Nat.digitChar (n / 10), Nat.digitChar (n % 10)]⟩

/-- Zero-padded four-digit decimal rendering (the `%Y` field, for years
in the program's range 1000-9999 in effect `repr`). -/
def pad4 (n : Nat) : String :=
  ⟨[Nat.digitChar (n / 1000 % 10), Nat.digitChar (n / 100 % 10),
    Nat.digitChar (n / 10 % 10), Nat.digitChar (n % 10)]⟩

/-- `time.strftime(TIME_FILE_FORMAT)` with `TIME_FILE_FORMAT = %y%m%d%H%M%S`
(dsb.py line 16): two-digit year (`year % 100`), then month, day, hour,
minute, second, all zero-padded to width two. -/
def strftimeFile (t : DateTime) : String :=
  pad2 (t.year % 100) ++ pad2 t.month ++ pad2 t.day ++
  pad2 t.hour ++ pad2 t.minute ++ pad2 t.second

/-- `time.strftime(TIME_DISPLAY_FORMAT)` with format `%Y/%m/%d %H:%M:%S`
(dsb.py line 15). -/
def strftimeDisplay (t : DateTime) : String :=
  pad4 t.year ++ "/" ++ pad2 t.month ++ "/" ++ pad2 t.day ++ " " ++
  pad2 t.hour ++ ":" ++ pad2 t.minute ++ ":" ++ pad2 t.second

/-- Numeric value of a decimal digit character. -/
def digitVal (c : Char) : Nat := c.toNat - 48

/-- `datetime.strptime(s, TIME_FILE_FORMAT)` on canonical inputs: twelve
decimal digits, split into two-digit fields; `%y` maps 00-68 to 2000-2068
and 69-99 to 1969-1999; the resulting fields must form a valid calendar
date and time or a `ValueError` is raised (modelled as `none`). -/
def strptimeFile (s : String) : Option DateTime :=
  match s.data with
  | [c1, c2, c3, c4, c5, c6, c7, c8, c9, c10, c11, c12] =>
    if (c1.isDigit && c2.isDigit && c3.isDigit && c4.isDigit &&
        c5.isDigit && c6.isDigit && c7.isDigit && c8.isDigit &&
        c9.isDigit && c10.isDigit && c11.isDigit && c12.isDigit) then
      let y2 := digitVal c1 * 10 + digitVal c2
      let y := if y2 ≤ 68 then 2000 + y2 else 1900 + y2
      let mo := digitVal c3 * 10 + digitVal c4
      let d := digitVal c5 * 10 + digitVal c6
      let h := digitVal c7 * 10 + digitVal c8
      let mi := digitVal c9 * 10 + digitVal c10
      let sec := digitVal c11 * 10 + digitVal c12
      if 1 ≤ mo && mo ≤ 12 && 1 ≤ d && d ≤ daysInMonth y mo &&
         h ≤ 23 && mi ≤ 59 && sec ≤ 59 then
        some ⟨y, mo, d, h, mi, sec, 0⟩
      else none
    else none
  | _ => none

/-! ### String helpers mirroring `pathlib` / `str` operations -/

/-- `Path.stem`: the final component without its last suffix.  The suffix
is `name[i:]` for `i` the index of the last dot, provided `0 < i < len-1`
(pathlib's rule); otherwise there is no suffix and the stem is the whole
name. -/
def stem (s : String) : String :=
  match s.data.reverse.findIdx? (· == '.') with
  | some j =>
    let i := s.data.length - 1 - j
    if 0 < i ∧ i < s.data.length - 1 then ⟨s.data.take i⟩ else s
  | none => s

/-- `str.partition('-')` restricted to the two parts the program reads:
`(before first dash, after first dash)`; when no dash occurs the result is
`(s, "")` (Python returns `(s, '', '')`). -/
def partitionDash (s : String) : String × String :=
  match s.data.findIdx? (· == '-') with
  | some i => (⟨s.data.take i⟩, ⟨s.data.drop (i + 1)⟩)
  | none => (s, "")

/-! ### Filesystem model

The backup directory is a flat, ordered list of entries --- the order is
the filesystem enumeration order that `Path.glob` reports.  An entry is a
name plus a flag telling whether it is a directory (everything the program
distinguishes via `exists`/`is_file`).  Names in a real directory are
unique; theorems that need this assume `Nodup` on the names. -/

structure Entry where
  ename : String
  isDir : Bool
  deriving DecidableEq, Repr

abbrev Dir := List Entry

/-- `path.exists() / path.is_file()` support: the entry with a given name. -/
def lookupEntry (d : Dir) (n : String) : Option Entry :=
  List.find? (fun e => e.ename == n) d

def pathExists (d : Dir) (n : String) : Bool :=
  (lookupEntry d n).isSome

def pathIsFile (d : Dir) (n : String) : Bool :=
  match lookupEntry d n with
  | some e => !e.isDir
  | none => false

/-- `copy_file(src, dst)` as it affects the directory listing: writing to
name `n` overwrites an existing entry in place or appends a new file
entry at the end of the enumeration. -/
def writeFile (d : Dir) (n : String) : Dir :=
  if List.any d (fun e => e.ename == n) then
    List.map (fun e => if e.ename == n then Entry.mk n false else e) d
  else
    d ++ [Entry.mk n false]

/-- `Path.unlink()` as it affects the directory listing. -/
def unlinkFile (d : Dir) (n : String) : Dir :=
  List.filter (fun e => !(e.ename == n)) d

/-- `Path.glob('*.sl2')` membership test on one name (`SAVE_FILE_SUFFIX =
'.sl2'`, dsb.py line 17): `*` matches any character sequence, so a name
matches exactly when it ends with the suffix. -/
def globMatch (n : String) : Bool :=
  List.isSuffixOf ".sl2".data n.data

/-! ### Errors

The exceptions the embedded code can raise, with the argument each raise
site passes (dsb.py raises each with exactly one argument). -/

inductive Err where
  | unknownMode (cmd : String)
  | backupNotFound (sel : String)
  | isADirectory (p : String)
  | valueError (msg : String)
  | typeError (msg : String)
  deriving DecidableEq, Repr

/-- `type(err).__name__`. -/
def Err.errName : Err → String
  | .unknownMode _ => "UnknownModeError"
  | .backupNotFound _ => "BackupNotFoundError"
  | .isADirectory _ => "IsADirectoryError"
  | .valueError _ => "ValueError"
  | .typeError _ => "TypeError"

/-- `map(str, err.args)`. -/
def Err.errArgs : Err → List String
  | .unknownMode s => [s]
  | .backupNotFound s => [s]
  | .isADirectory s => [s]
  | .valueError s => [s]
  | .typeError s => [s]

/-- The string `execute_safe` builds from a caught exception (dsb.py line
212): `': '.join((type(err).__name__, *map(str, err.args)))`. -/
def Err.render (e : Err) : String :=
  String.intercalate ": " (e.errName :: e.errArgs)

/-! ### Backup (dsb.py lines 53-83) -/

structure Backup where
  path : String
  deriving DecidableEq, Repr

/-- `Backup.name` (line 70): `self.path.stem.partition('-')[2]`. -/
def Backup.bname (b : Backup) : String :=
  (partitionDash (stem b.path)).2

/-- `Backup.time` (line 74): `datetime.strptime(self.path.stem.partition('-')[0],
TIME_FILE_FORMAT)`; `none` models the `ValueError` raise. -/
def Backup.btime (b : Backup) : Option DateTime :=
  strptimeFile (partitionDash (stem b.path)).1

/-- `str(backup)` = `Backup.__str__` (line 61): the display name. -/
def Backup.display (b : Backup) : String := b.bname

/-- `Backup.__init__` + `Backup.check` (lines 56-66): record the path,
then fail with `IsADirectoryError(path)` if the path exists and is not a
regular file, else with the `ValueError` from `strptime` if the timestamp
segment of the stem does not parse. -/
def mkBackup (d : Dir) (p : String) : Except Err Backup :=
  if pathExists d p && !pathIsFile d p then
    .error (.isADirectory p)
  else
    match (Backup.mk p).btime with
    | some _ => .ok (Backup.mk p)
    | none =>
      .error (.valueError ("time data " ++ (partitionDash (stem p)).1 ++
        " does not match format %y%m%d%H%M%S"))

/-! ### BackupDir (dsb.py lines 86-125) -/

/-- The body of the `backups` generator (lines 96-103), eagerly collected:
for each directory entry matching the glob, construct a `Backup`; a
`ValueError` breaks out of the loop (the backups yielded so far stand),
any other exception propagates at the point the generator is pulled.
The whole directory `d` stays in scope for the `exists`/`is_file` checks
while `es` is the suffix of entries still to enumerate. -/
def listGo (d : Dir) : List Entry → Except Err (List Backup)
  | [] => .ok []
  | e :: es =>
    if globMatch e.ename then
      match mkBackup d e.ename with
      | .error (.valueError _) => .ok []
      | .error err => .error err
      | .ok b =>
        match listGo d es with
        | .ok bs => .ok (b :: bs)
        | .error err => .error err
    else listGo d es

/-- `BackupDir.backups` (lines 96-103), fully enumerated. -/
def listBackups (d : Dir) : Except Err (List Backup) :=
  listGo d d

/-- The loop of `BackupDir.find` (lines 106-111): fold over the
enumerated backups with 1-based index `i`, tracking `(backup, ind_match,
str_match)` --- the last enumerated backup, the last backup whose index
string equals the selector, and the last backup whose display name equals
the selector. -/
def scanSel (sel : String) : List Backup → Nat →
    Option Backup × Option Backup × Option Backup → Option Backup × Option Backup × Option Backup
  | [], _, st => st
  | b :: bs, i, st =>
    scanSel sel bs (i + 1)
      (some b,
       (if toString i = sel then some b else st.2.1),
       (if b.display = sel then some b else st.2.2))

/-- `BackupDir.find` (lines 105-118): run the scan, then
`if not selector and backup: return backup`,
`elif selector and ind_match: return ind_match`,
`elif selector and str_match: return str_match`,
`raise BackupNotFoundError(selector)`. -/
def find (d : Dir) (sel : String) : Except Err Backup :=
  match listBackups d with
  | .error err => .error err
  | .ok bs =>
    let st := scanSel sel bs 1 (none, none, none)
    if sel = "" then
      match st.1 with
      | some b => .ok b
      | none => .error (.backupNotFound sel)
    else
      match st.2.1 with
      | some b => .ok b
      | none =>
        match st.2.2 with
        | some b => .ok b
        | none => .error (.backupNotFound sel)

/-- The file name `BackupDir.create` computes (line 124):
`time_str + ('-' if name else '') + name + SAVE_FILE_SUFFIX`. -/
def createName (name : String) (time : DateTime) : String :=
  strftimeFile time ++ (if name = "" then "" else "-") ++ name ++ ".sl2"

/-- `BackupDir.create` (lines 120-125) with the `name or ''` /
`time or datetime.now()` defaults already resolved by the caller:
build the target name inside the directory and construct a `Backup` on
it (which runs `check`). -/
def create (d : Dir) (name : String) (time : DateTime) : Except Err Backup :=
  mkBackup d (createName name time)

/-! ### CommandHandler (dsb.py lines 140-220)

The world a command acts on: the backup directory listing, the `running`
flag, and the ambient clock supplying `datetime.now()`.  The save file's
byte content is not modelled (no claim concerns it); copying onto the
save file leaves the world unchanged, copying onto a backup path updates
the directory listing. -/

structure World where
  dir : Dir
  running : Option Bool
  now : DateTime
  deriving Repr, DecidableEq

/-- Python string formatting `{: >3.3}`: truncate to width, pad left. -/
def fmtRight (w : Nat) (s : String) : String :=
  let t := s.take w
  String.mk (List.replicate (w - t.length) ' ') ++ t

/-- Python string formatting `{: ^19.19}`: truncate, center (extra space
on the right). -/
def fmtCenter (w : Nat) (s : String) : String :=
  let t := s.take w
  let pad := w - t.length
  String.mk (List.replicate (pad / 2) ' ') ++ t ++
    String.mk (List.replicate (pad - pad / 2) ' ')

/-- Python string formatting `{: <32.32}`: truncate to width, pad right. -/
def fmtLeft (w : Nat) (s : String) : String :=
  let t := s.take w
  t ++ String.mk (List.replicate (w - t.length) ' ')

/-- One rendered row of the `list` table: the format string
`'{: >3.3} {: ^19.19}    {: <32.32}'` (line 169) applied to three
arguments (a fourth, if passed, is ignored, as in Python). -/
def fmtRow (a b c : String) : String :=
  fmtRight 3 a ++ " " ++ fmtCenter 19 b ++ "    " ++ fmtLeft 32 c

/-- `CommandHandler.list` (lines 167-177). `backup.time` cannot fail here
because every enumerated backup parsed during construction; the `none`
branch is unreachable. -/
def listCmd (w : World) (args : List String) : Except Err (World × String) :=
  match args with
  | [] =>
    match listBackups w.dir with
    | .error err => .error err
    | .ok bs =>
      if bs = [] then .ok (w, "No backups found")
      else
        .ok (w, String.intercalate "\n"
          (fmtRow "Num" "Creation time" "Name" ::
           fmtRow (String.mk (List.replicate 100 '_')) (String.mk (List.replicate 100 '_'))
             (String.mk (List.replicate 100 '_')) ::
           (List.enumFrom 1 bs).map (fun p =>
             fmtRow (toString p.1 ++ ".")
               (match p.2.btime with
                | some t => strftimeDisplay t
                | none => "")
               p.2.bname)))
  | _ => .error (.typeError ("list() takes 1 positional argument but " ++
      toString (args.length + 1) ++ " were given"))

/-- `CommandHandler.save` (lines 179-183): create a backup named by the
selector at the current time, copy the save file onto it, confirm. -/
def saveCmd (w : World) (args : List String) : Except Err (World × String) :=
  match args with
  | [] => saveBody w ""
  | [sel] => saveBody w sel
  | _ => .error (.typeError ("save() takes from 1 to 2 positional arguments but " ++
      toString (args.length + 1) ++ " were given"))
where
  saveBody (w : World) (sel : String) : Except Err (World × String) :=
    match create w.dir sel w.now with
    | .error err => .error err
    | .ok b => .ok ({ w with dir := writeFile w.dir b.path }, "Saved backup " ++ b.display)

/-- `CommandHandler.load` (lines 185-189): find, copy onto the save file,
confirm. -/
def loadCmd (w : World) (args : List String) : Except Err (World × String) :=
  match args with
  | [] => loadBody w ""
  | [sel] => loadBody w sel
  | _ => .error (.typeError ("load() takes from 1 to 2 positional arguments but " ++
      toString (args.length + 1) ++ " were given"))
where
  loadBody (w : World) (sel : String) : Except Err (World × String) :=
    match find w.dir sel with
    | .error err => .error err
    | .ok b => .ok (w, "Loaded backup " ++ b.display)

/-- `CommandHandler.delete` (lines 191-195): find, unlink, confirm. -/
def deleteCmd (w : World) (args : List String) : Except Err (World × String) :=
  match args with
  | [] => deleteBody w ""
  | [sel] => deleteBody w sel
  | _ => .error (.typeError ("delete() takes from 1 to 2 positional arguments but " ++
      toString (args.length + 1) ++ " were given"))
where
  deleteBody (w : World) (sel : String) : Except Err (World × String) :=
    match find w.dir sel with
    | .error err => .error err
    | .ok b => .ok ({ w with dir := unlinkFile w.dir b.path }, "Deleted backup " ++ b.display)

/-- `CommandHandler.quit` (lines 197-200). -/
def quitCmd (w : World) (args : List String) : Except Err (World × String) :=
  match args with
  | [] => .ok ({ w with running := some false }, "Quitting...")
  | _ => .error (.typeError ("quit() takes 1 positional argument but " ++
      toString (args.length + 1) ++ " were given"))

/-- One registered command: its alias tuple and bound handler. -/
structure Cmd where
  aliases : List String
  run : World → List String → Except Err (World × String)

/-- `Command.commands` --- the process-wide registry in declaration order
(lines 143, 150, 167-200). -/
def commands : List Cmd :=
  [⟨["list", "ls"], listCmd⟩,
   ⟨["save"], saveCmd⟩,
   ⟨["load"], loadCmd⟩,
   ⟨["delete", "del"], deleteCmd⟩,
   ⟨["quit", "q"], quitCmd⟩]

/-- The loop of `CommandHandler.execute` (lines 203-205): linear scan of
the registry for the first command whose aliases contain `cmd`. -/
def executeLoop (w : World) (cmd : String) (args : List String) :
    List Cmd → Except Err (World × String)
  | [] => .error (.unknownMode cmd)
  | c :: cs => if cmd ∈ c.aliases then c.run w args else executeLoop w cmd args cs

/-- `CommandHandler.execute` (lines 202-206). -/
def execute (w : World) (cmd : String) (args : List String) : Except Err (World × String) :=
  executeLoop w cmd args commands

/-- `execute(*argv)` with `execute(self, cmd='', *args)`: an empty token
list invokes `execute` with the default `cmd = ''`. -/
def executeArgv (w : World) (argv : List String) : Except Err (World × String) :=
  match argv with
  | [] => execute w "" []
  | c :: rest => execute w c rest

/-- `CommandHandler.execute_safe` (lines 208-212): run `execute` over the
token list; a caught exception becomes the rendered error string and the
world is left as the failed command left it (no handler mutates state
before raising, so that is the incoming world). -/
def executeSafe (w : World) (argv : List String) : World × String :=
  match executeArgv w argv with
  | .ok r => r
  | .error e => (w, e.render)

/-! ### Decimal rendering facts

`str(ind)` in Python and `toString ind` in this file both render a natural
number in decimal; the selector lemmas need that rendering to be injective. -/

/-- Decimal digit-character list of a natural number, most significant
first (the fuel-free counterpart of `Nat.toDigitsCore`). -/
def decChars (n : Nat) : List Char :=
  if h : n / 10 = 0 then [Nat.digitChar (n % 10)]
  else decChars (n / 10) ++ [Nat.digitChar (n % 10)]
termination_by n
decreasing_by
  exact Nat.div_lt_self (Nat.pos_of_ne_zero (fun hz => h (by simp [hz]))) (by norm_num)

theorem decChars_base {n : Nat} (h : n / 10 = 0) :
    decChars n = [Nat.digitChar (n % 10)] := by
  rw [decChars]; simp [h]

theorem decChars_step {n : Nat} (h : n / 10 ≠ 0) :
    decChars n = decChars (n / 10) ++ [Nat.digitChar (n % 10)] := by
  rw [decChars]; simp [h]

theorem decChars_ne_nil (n : Nat) : decChars n ≠ [] := by
  by_cases h : n / 10 = 0
  · rw [decChars_base h]; simp
  · rw [decChars_step h]; simp

theorem toDigitsCore_eq_decChars :
    ∀ (fuel n : Nat) (acc : List Char), n < fuel →
      Nat.toDigitsCore 10 fuel n acc = decChars n ++ acc := by
  intro fuel
  induction fuel with
  | zero => intro n acc h; omega
  | succ fuel ih =>
    intro n acc h
    by_cases h0 : n / 10 = 0
    · simp [Nat.toDigitsCore, h0, decChars_base h0]
    · have hdiv : n / 10 < n := Nat.div_lt_self (Nat.pos_of_ne_zero
        (fun hz => h0 (by simp [hz]))) (by norm_num)
      simp only [Nat.toDigitsCore, h0, if_false]
      rw [ih (n / 10) _ (by omega), decChars_step h0, List.append_assoc]
      rfl

theorem repr_eq_decChars (n : Nat) : Nat.repr n = ⟨decChars n⟩ := by
  show (Nat.toDigits 10 n).asString = _
  rw [Nat.toDigits, toDigitsCore_eq_decChars (n + 1) n [] (by omega)]
  simp [List.asString]

theorem digitChar_inj10 {a b : Nat} (ha : a < 10) (hb : b < 10)
    (h : Nat.digitChar a = Nat.digitChar b) : a = b := by
  have key : ∀ x y : Fin 10, Nat.digitChar x.val = Nat.digitChar y.val → x = y := by decide
  have := key ⟨a, ha⟩ ⟨b, hb⟩ h
  exact congrArg Fin.val this

theorem decChars_inj : ∀ m n : Nat, decChars m = decChars n → m = n := by
  intro m
  induction m using Nat.strong_induction_on with
  | _ m ih =>
    intro n h
    by_cases hm : m / 10 = 0 <;> by_cases hn : n / 10 = 0
    · rw [decChars_base hm, decChars_base hn] at h
      have := digitChar_inj10 (Nat.mod_lt _ (by norm_num)) (Nat.mod_lt _ (by norm_num))
        (List.head_eq_of_cons_eq h)
      omega
    · rw [decChars_base hm, decChars_step hn] at h
      cases e : decChars (n / 10) with
      | nil => exact absurd e (decChars_ne_nil (n / 10))
      | cons c cs =>
        rw [e] at h
        have := congrArg List.length h
        simp at this
    · rw [decChars_step hm, decChars_base hn] at h
      cases e : decChars (m / 10) with
      | nil => exact absurd e (decChars_ne_nil (m / 10))
      | cons c cs =>
        rw [e] at h
        have := congrArg List.length h
        simp at this
    · rw [decChars_step hm, decChars_step hn] at h
      obtain ⟨h1, h2⟩ := List.append_inj' h (by simp)
      have hdiv : m / 10 < m := Nat.div_lt_self (Nat.pos_of_ne_zero
        (fun hz => hm (by simp [hz]))) (by norm_num)
      have heq : m / 10 = n / 10 := ih (m / 10) hdiv (n / 10) h1
      have hmod := digitChar_inj10 (Nat.mod_lt _ (by norm_num))
        (Nat.mod_lt _ (by norm_num)) (List.head_eq_of_cons_eq h2)
      omega

theorem natRepr_inj {m n : Nat} (h : Nat.repr m = Nat.repr n) : m = n := by
  rw [repr_eq_decChars, repr_eq_decChars] at h
  exact decChars_inj m n (congrArg String.data h)

theorem toStringNat_inj {m n : Nat} (h : toString m = toString n) : m = n :=
  natRepr_inj h

/-! ### Digit-character facts -/

theorem isDigit_digitChar {k : Nat} (hk : k < 10) : (Nat.digitChar k).isDigit = true := by
  have key : ∀ x : Fin 10, (Nat.digitChar x.val).isDigit = true := by decide
  exact key ⟨k, hk⟩

theorem digitVal_digitChar {k : Nat} (hk : k < 10) : digitVal (Nat.digitChar k) = k := by
  have key : ∀ x : Fin 10, digitVal (Nat.digitChar x.val) = x.val := by decide
  exact key ⟨k, hk⟩

theorem digitChar_lt_digitChar {a b : Nat} (ha : a < 10) (hb : b < 10) (h : a < b) :
    Nat.digitChar a < Nat.digitChar b := by
  have key : ∀ x y : Fin 10, x < y → Nat.digitChar x.val < Nat.digitChar y.val := by decide
  exact key ⟨a, ha⟩ ⟨b, hb⟩ h

theorem digitChar_safe (k : Nat) (hk : k < 10) :
    (Nat.digitChar k == '-') = false ∧ (Nat.digitChar k == '.') = false := by
  have key : ∀ x : Fin 10,
      (Nat.digitChar x.val == '-') = false ∧ (Nat.digitChar x.val == '.') = false := by decide
  exact key ⟨k, hk⟩

theorem daysInMonth_le (y m : Nat) : daysInMonth y m ≤ 31 := by
  unfold daysInMonth
  split
  · split <;> norm_num
  · split <;> norm_num

/-- The on-disk timestamp as an explicit character list. -/
theorem strftimeFile_data (t : DateTime) :
    (strftimeFile t).data =
      [Nat.digitChar (t.year % 100 / 10), Nat.digitChar (t.year % 100 % 10),
       Nat.digitChar (t.month / 10), Nat.digitChar (t.month % 10),
       Nat.digitChar (t.day / 10), Nat.digitChar (t.day % 10),
       Nat.digitChar (t.hour / 10), Nat.digitChar (t.hour % 10),
       Nat.digitChar (t.minute / 10), Nat.digitChar (t.minute % 10),
       Nat.digitChar (t.second / 10), Nat.digitChar (t.second % 10)] := by
  simp [strftimeFile, pad2]

/-- All characters that `strftimeFile` emits for a well-formed time are
decimal digits; in particular none is a dash or a dot. -/
theorem strftimeFile_chars (t : DateTime) (hv : t.Valid) :
    ∀ c ∈ (strftimeFile t).data, (c == '-') = false ∧ (c == '.') = false := by
  obtain ⟨_, _, _, h4, _, h6, h7, h8, h9, _⟩ := hv
  have hday : t.day ≤ 31 := le_trans h6 (daysInMonth_le t.year t.month)
  have hy : t.year % 100 < 100 := Nat.mod_lt _ (by norm_num)
  intro c hc
  rw [strftimeFile_data] at hc
  simp only [List.mem_cons, List.not_mem_nil, or_false] at hc
  rcases hc with h | h | h | h | h | h | h | h | h | h | h | h <;> subst h <;>
    exact digitChar_safe _ (by omega)

theorem strftimeFile_length (t : DateTime) : (strftimeFile t).data.length = 12 := by
  simp [strftimeFile, pad2]

/-! ### List helper lemmas -/

theorem findIdx?_append_none {p : Char → Bool} :
    ∀ (l1 l2 : List Char), (∀ c ∈ l1, p c = false) →
      List.findIdx? p (l1 ++ l2) = (List.findIdx? p l2).map (· + l1.length) := by
  intro l1
  induction l1 with
  | nil =>
    intro l2 _
    simp only [List.nil_append, List.length_nil]
    cases List.findIdx? p l2 <;> simp
  | cons a as ih =>
    intro l2 h
    have ha := h a (by simp)
    rw [List.cons_append]
    rw [show List.findIdx? p (a :: (as ++ l2)) =
      if p a then some 0 else List.findIdx? p (as ++ l2) 1 from rfl]
    rw [ha]
    simp only [Bool.false_eq_true, if_false]
    rw [List.findIdx?_succ, ih l2 (fun c hc => h c (List.mem_cons_of_mem a hc))]
    cases List.findIdx? p l2 <;> (simp; try omega)

theorem findIdx?_none_of_all {p : Char → Bool} :
    ∀ (l : List Char), (∀ c ∈ l, p c = false) → List.findIdx? p l = none := by
  intro l h
  have := findIdx?_append_none l [] h
  simpa using this

/-- With distinct names, the `find?`-based lookup locates exactly the
entry at any given position. -/
theorem lookupEntry_nodup (d : Dir) (hnd : (d.map Entry.ename).Nodup) :
    ∀ k (hk : k < d.length), lookupEntry d (d[k].ename) = some d[k] := by
  induction d with
  | nil => intro k hk; simp at hk
  | cons e es ih =>
    intro k hk
    simp only [List.map_cons, List.nodup_cons] at hnd
    cases k with
    | zero => simp [lookupEntry]
    | succ k =>
      have hk' : k < es.length := by simpa using hk
      have hne : ¬(e.ename == es[k].ename) = true := by
        intro h
        exact hnd.1 (by
          rw [List.mem_map]
          exact ⟨es[k], List.getElem_mem hk', (beq_iff_eq.mp h).symm⟩)
      simp only [List.getElem_cons_succ, lookupEntry, List.find?_cons,
        Bool.not_eq_true] at hne ⊢
      rw [hne]
      exact ih hnd.2 k hk'

/-- A name ending in `.sl2` matches the glob. -/
theorem globMatch_append_sl2 (b : String) : globMatch (b ++ ".sl2") = true := by
  rw [globMatch, List.isSuffixOf, List.isPrefixOf_iff_prefix, String.data_append,
    List.reverse_append]
  exact List.prefix_append _ _

/-! ### Stem and partition lemmas -/

/-- `stem` of `<base>.sl2` is `<base>` (the trailing `.sl2` carries the
final dot of the name). -/
theorem stem_append_sl2 (b : String) (hb : b.data ≠ []) : stem (b ++ ".sl2") = b := by
  have hrev : (b ++ ".sl2").data.reverse = '2' :: 'l' :: 's' :: '.' :: b.data.reverse := by
    simp [String.data_append]
  have hfind : (b ++ ".sl2").data.reverse.findIdx? (· == '.') = some 3 := by
    rw [hrev]
    simp [List.findIdx?_cons]
  have hlen : (b ++ ".sl2").data.length = b.data.length + 4 := by
    simp [String.data_append]
  have hpos : 0 < b.data.length := List.length_pos.mpr hb
  simp only [stem, hfind, hlen]
  have h1 : b.data.length + 4 - 1 - 3 = b.data.length := by omega
  rw [h1]
  have : (0 < b.data.length ∧ b.data.length < b.data.length + 4 - 1) := ⟨hpos, by omega⟩
  rw [if_pos this]
  show (⟨(b.data ++ ".sl2".data).take b.data.length⟩ : String) = b
  rw [List.take_left]

/-- `partition('-')` on a string with no dash. -/
theorem partitionDash_no_dash (s : String) (h : ∀ c ∈ s.data, (c == '-') = false) :
    partitionDash s = (s, "") := by
  simp [partitionDash, findIdx?_none_of_all s.data h]

/-- `partition('-')` splits at the first dash: with a dash-free prefix the
parts are the prefix and everything after the dash. -/
theorem partitionDash_split (ts rest : String) (h : ∀ c ∈ ts.data, (c == '-') = false) :
    partitionDash (ts ++ "-" ++ rest) = (ts, rest) := by
  have hdata : (ts ++ "-" ++ rest).data = ts.data ++ ('-' :: rest.data) := by
    simp [String.data_append]
  have hfind : (ts ++ "-" ++ rest).data.findIdx? (· == '-') = some ts.data.length := by
    rw [hdata, findIdx?_append_none _ _ h]
    simp [List.findIdx?_cons]
  have h1 : (⟨(ts ++ "-" ++ rest).data.take ts.data.length⟩ : String) = ts := by
    rw [hdata, List.take_left]
  have h2 : (⟨(ts ++ "-" ++ rest).data.drop (ts.data.length + 1)⟩ : String) = rest := by
    rw [hdata]
    rw [show ts.data ++ ('-' :: rest.data) = (ts.data ++ ['-']) ++ rest.data by simp]
    rw [show ts.data.length + 1 = (ts.data ++ ['-']).length from by simp]
    rw [List.drop_left]
  simp only [partitionDash, hfind, Prod.mk.injEq]
  exact ⟨h1, h2⟩

/-! ### Round trip through the on-disk timestamp format -/

theorem strptime_strftime (t : DateTime) (hv : t.Valid)
    (hy1 : 1969 ≤ t.year) (hy2 : t.year ≤ 2068) :
    strptimeFile (strftimeFile t) = some t.truncSec := by
  obtain ⟨hv1, hv2, hv3, hv4, hv5, hv6, hv7, hv8, hv9, hv10⟩ := hv
  have hday31 : t.day ≤ 31 := le_trans hv6 (daysInMonth_le t.year t.month)
  have hy : t.year % 100 < 100 := Nat.mod_lt _ (by norm_num)
  have e1 : (Nat.digitChar (t.year % 100 / 10)).isDigit = true := isDigit_digitChar (by omega)
  have e2 : (Nat.digitChar (t.year % 100 % 10)).isDigit = true := isDigit_digitChar (by omega)
  have e3 : (Nat.digitChar (t.month / 10)).isDigit = true := isDigit_digitChar (by omega)
  have e4 : (Nat.digitChar (t.month % 10)).isDigit = true := isDigit_digitChar (by omega)
  have e5 : (Nat.digitChar (t.day / 10)).isDigit = true := isDigit_digitChar (by omega)
  have e6 : (Nat.digitChar (t.day % 10)).isDigit = true := isDigit_digitChar (by omega)
  have e7 : (Nat.digitChar (t.hour / 10)).isDigit = true := isDigit_digitChar (by omega)
  have e8 : (Nat.digitChar (t.hour % 10)).isDigit = true := isDigit_digitChar (by omega)
  have e9 : (Nat.digitChar (t.minute / 10)).isDigit = true := isDigit_digitChar (by omega)
  have e10 : (Nat.digitChar (t.minute % 10)).isDigit = true := isDigit_digitChar (by omega)
  have e11 : (Nat.digitChar (t.second / 10)).isDigit = true := isDigit_digitChar (by omega)
  have e12 : (Nat.digitChar (t.second % 10)).isDigit = true := isDigit_digitChar (by omega)
  have v1 : digitVal (Nat.digitChar (t.year % 100 / 10)) = t.year % 100 / 10 :=
    digitVal_digitChar (by omega)
  have v2 : digitVal (Nat.digitChar (t.year % 100 % 10)) = t.year % 100 % 10 :=
    digitVal_digitChar (by omega)
  have v3 : digitVal (Nat.digitChar (t.month / 10)) = t.month / 10 :=
    digitVal_digitChar (by omega)
  have v4 : digitVal (Nat.digitChar (t.month % 10)) = t.month % 10 :=
    digitVal_digitChar (by omega)
  have v5 : digitVal (Nat.digitChar (t.day / 10)) = t.day / 10 :=
    digitVal_digitChar (by omega)
  have v6 : digitVal (Nat.digitChar (t.day % 10)) = t.day % 10 :=
    digitVal_digitChar (by omega)
  have v7 : digitVal (Nat.digitChar (t.hour / 10)) = t.hour / 10 :=
    digitVal_digitChar (by omega)
  have v8 : digitVal (Nat.digitChar (t.hour % 10)) = t.hour % 10 :=
    digitVal_digitChar (by omega)
  have v9 : digitVal (Nat.digitChar (t.minute / 10)) = t.minute / 10 :=
    digitVal_digitChar (by omega)
  have v10 : digitVal (Nat.digitChar (t.minute % 10)) = t.minute % 10 :=
    digitVal_digitChar (by omega)
  have v11 : digitVal (Nat.digitChar (t.second / 10)) = t.second / 10 :=
    digitVal_digitChar (by omega)
  have v12 : digitVal (Nat.digitChar (t.second % 10)) = t.second % 10 :=
    digitVal_digitChar (by omega)
  have r1 : t.year % 100 / 10 * 10 + t.year % 100 % 10 = t.year % 100 := by omega
  have r2 : t.month / 10 * 10 + t.month % 10 = t.month := by omega
  have r3 : t.day / 10 * 10 + t.day % 10 = t.day := by omega
  have r4 : t.hour / 10 * 10 + t.hour % 10 = t.hour := by omega
  have r5 : t.minute / 10 * 10 + t.minute % 10 = t.minute := by omega
  have r6 : t.second / 10 * 10 + t.second % 10 = t.second := by omega
  have hyeq : (if t.year % 100 ≤ 68 then 2000 + t.year % 100 else 1900 + t.year % 100)
      = t.year := by split <;> omega
  unfold strptimeFile
  rw [strftimeFile_data]
  simp only [e1, e2, e3, e4, e5, e6, e7, e8, e9, e10, e11, e12, Bool.and_self, if_true,
    v1, v2, v3, v4, v5, v6, v7, v8, v9, v10, v11, v12, r1, r2, r3, r4, r5, r6, hyeq]
  rw [if_pos]
  · rfl
  · simp only [Bool.and_eq_true, decide_eq_true_eq]
    refine ⟨⟨⟨⟨⟨⟨hv3, hv4⟩, hv5⟩, hv6⟩, hv7⟩, hv8⟩, hv9⟩

/-! ### The naming scheme round trip -/

theorem createName_eq (name : String) (t : DateTime) :
    createName name t =
      (strftimeFile t ++ (if name = "" then "" else "-") ++ name) ++ ".sl2" := by
  simp [createName]

theorem strftimeFile_ne_nil (t : DateTime) : (strftimeFile t).data ≠ [] := by
  rw [strftimeFile_data]; simp

/-- `stem` recovers `<timestamp>[-name]` from the created file name. -/
theorem stem_createName (name : String) (t : DateTime) :
    stem (createName name t) =
      strftimeFile t ++ (if name = "" then "" else "-") ++ name := by
  rw [createName_eq, stem_append_sl2]
  intro h
  have := congrArg List.length h
  simp only [String.data_append, List.length_append, List.length_nil] at this
  exact absurd (List.length_eq_zero.mp (by omega)) (strftimeFile_ne_nil t)

/-- The `name` derived from a freshly created backup file equals the name
passed to `create` (any name; the timestamp part contains no dash, and the
`.sl2` suffix keeps the final dot out of the stem). -/
theorem bname_createName (name : String) (t : DateTime) (hv : t.Valid) :
    (Backup.mk (createName name t)).bname = name := by
  rw [Backup.bname, stem_createName]
  by_cases h : name = ""
  · subst h
    have hsimp : (strftimeFile t ++ (if ("" : String) = "" then "" else "-") ++ "")
        = strftimeFile t := by simp
    rw [hsimp]
    rw [partitionDash_no_dash _ (fun c hc => (strftimeFile_chars t hv c hc).1)]
  · rw [if_neg h, partitionDash_split _ _ (fun c hc => (strftimeFile_chars t hv c hc).1)]

/-- The `creationTime` derived from a freshly created backup file equals
the `create` argument truncated to seconds (years 1969-2068 are the range
the 2-digit-year format can represent faithfully). -/
theorem btime_createName (name : String) (t : DateTime) (hv : t.Valid)
    (hy1 : 1969 ≤ t.year) (hy2 : t.year ≤ 2068) :
    (Backup.mk (createName name t)).btime = some t.truncSec := by
  rw [Backup.btime, stem_createName]
  by_cases h : name = ""
  · subst h
    have hsimp : (strftimeFile t ++ (if ("" : String) = "" then "" else "-") ++ "")
        = strftimeFile t := by simp
    rw [hsimp]
    rw [partitionDash_no_dash _ (fun c hc => (strftimeFile_chars t hv c hc).1)]
    exact strptime_strftime t hv hy1 hy2
  · rw [if_neg h, partitionDash_split _ _ (fun c hc => (strftimeFile_chars t hv c hc).1)]
    exact strptime_strftime t hv hy1 hy2

/-! ### Selector-scan lemmas

The three components tracked by the `find` loop: the last enumerated
backup, the (unique) index match, and the last name match. -/

theorem scanSel_fst (sel : String) :
    ∀ (bs : List Backup) (i : Nat) (st : Option Backup × Option Backup × Option Backup),
      bs ≠ [] → (scanSel sel bs i st).1 = bs.getLast? := by
  intro bs
  induction bs with
  | nil => intro i st h; exact absurd rfl h
  | cons b bs ih =>
    intro i st _
    rw [scanSel]
    cases bs with
    | nil => rfl
    | cons b2 bs2 => rw [ih (i + 1) _ (by simp), List.getLast?_cons_cons]

theorem scanSel_ind_none (sel : String) :
    ∀ (bs : List Backup) (i : Nat) (st : Option Backup × Option Backup × Option Backup),
      (∀ k, k < bs.length → toString (i + k) ≠ sel) →
      (scanSel sel bs i st).2.1 = st.2.1 := by
  intro bs
  induction bs with
  | nil => intro i st _; rfl
  | cons b bs ih =>
    intro i st h
    rw [scanSel, ih (i + 1) _ (fun k hk => by
      have := h (k + 1) (by simpa using Nat.succ_lt_succ hk)
      rwa [show i + (k + 1) = i + 1 + k by omega] at this)]
    have h0 : ¬ toString i = sel := by
      have := h 0 (by simp)
      simpa using this
    simp [h0]

theorem scanSel_ind_found (sel : String) :
    ∀ (bs : List Backup) (i : Nat) (st : Option Backup × Option Backup × Option Backup)
      (j : Nat) (hj : j < bs.length), toString (i + j) = sel →
      (scanSel sel bs i st).2.1 = some bs[j] := by
  intro bs
  induction bs with
  | nil => intro i st j hj; simp at hj
  | cons b bs ih =>
    intro i st j hj hsel
    cases j with
    | zero =>
      rw [scanSel]
      have h0 : toString i = sel := by simpa using hsel
      rw [scanSel_ind_none sel bs (i + 1) _ (fun k hk heq => by
        have : i + 1 + k = i := toStringNat_inj (heq.trans h0.symm)
        omega)]
      simp [h0]
    | succ j =>
      rw [scanSel]
      have : toString (i + 1 + j) = sel := by
        rwa [show i + 1 + j = i + (j + 1) by omega]
      rw [ih (i + 1) _ j (by simpa using Nat.lt_of_succ_lt_succ hj) this]
      simp

theorem scanSel_str_none (sel : String) :
    ∀ (bs : List Backup) (i : Nat) (st : Option Backup × Option Backup × Option Backup),
      (∀ b ∈ bs, b.display ≠ sel) →
      (scanSel sel bs i st).2.2 = st.2.2 := by
  intro bs
  induction bs with
  | nil => intro i st _; rfl
  | cons b bs ih =>
    intro i st h
    rw [scanSel, ih (i + 1) _ (fun b' hb' => h b' (List.mem_cons_of_mem b hb'))]
    have h0 : ¬ b.display = sel := h b (List.mem_cons_self b bs)
    simp [h0]

theorem scanSel_str_found (sel : String) :
    ∀ (bs : List Backup) (i : Nat) (st : Option Backup × Option Backup × Option Backup)
      (j : Nat) (hj : j < bs.length), bs[j].display = sel →
      (∀ k (hk : k < bs.length), j < k → bs[k].display ≠ sel) →
      (scanSel sel bs i st).2.2 = some bs[j] := by
  intro bs
  induction bs with
  | nil => intro i st j hj; simp at hj
  | cons b bs ih =>
    intro i st j hj hsel hlast
    cases j with
    | zero =>
      rw [scanSel]
      have h0 : b.display = sel := by simpa using hsel
      rw [scanSel_str_none sel bs (i + 1) _ (fun b' hb' => by
        obtain ⟨k, hk, rfl⟩ := List.mem_iff_getElem.mp hb'
        have := hlast (k + 1) (by simpa using Nat.succ_lt_succ hk) (Nat.succ_pos k)
        simpa using this)]
      simp [h0]
    | succ j =>
      rw [scanSel]
      have hj' : j < bs.length := by simpa using Nat.lt_of_succ_lt_succ hj
      rw [ih (i + 1) _ j hj' (by simpa using hsel) (fun k hk hjk => by
        have := hlast (k + 1) (by simpa using Nat.succ_lt_succ hk)
          (Nat.succ_lt_succ hjk)
        simpa using this)]
      simp

/-! ### `find` characterizations -/

/-- With an empty selector, `find` returns the last enumerated backup, or
fails with `BackupNotFoundError('')` when enumeration produced none. -/
theorem find_empty_sel (d : Dir) (bs : List Backup) (h : listBackups d = .ok bs) :
    find d "" =
      (match bs.getLast? with
       | some b => .ok b
       | none => .error (.backupNotFound "")) := by
  simp only [find, h]
  cases bs with
  | nil => rfl
  | cons b bs2 =>
    rw [scanSel_fst "" (b :: bs2) 1 (none, none, none) (by simp)]
    simp

/-- With a non-empty selector that matches the 1-based index of position
`j`, `find` returns the backup at `j` regardless of any name matches. -/
theorem find_index_match (d : Dir) (bs : List Backup) (h : listBackups d = .ok bs)
    (sel : String) (hsel : sel ≠ "") (j : Nat) (hj : j < bs.length)
    (hidx : toString (j + 1) = sel) : find d sel = .ok bs[j] := by
  simp only [find, h]
  have : toString (1 + j) = sel := by rwa [Nat.add_comm 1 j]
  rw [if_neg hsel]
  rw [show (scanSel sel bs 1 (none, none, none)).2.1 = some bs[j] from
    scanSel_ind_found sel bs 1 (none, none, none) j hj this]

/-- With a non-empty selector, no index match, and a name match at
position `j` that is the last name match, `find` returns the backup at
`j`. -/
theorem find_name_match (d : Dir) (bs : List Backup) (h : listBackups d = .ok bs)
    (sel : String) (hsel : sel ≠ "")
    (hnoidx : ∀ k, k < bs.length → toString (k + 1) ≠ sel)
    (j : Nat) (hj : j < bs.length) (hname : bs[j].display = sel)
    (hlast : ∀ k (hk : k < bs.length), j < k → bs[k].display ≠ sel) :
    find d sel = .ok bs[j] := by
  simp only [find, h]
  rw [if_neg hsel]
  rw [show (scanSel sel bs 1 (none, none, none)).2.1 = none from
    scanSel_ind_none sel bs 1 (none, none, none) (fun k hk => by
      have := hnoidx k hk
      rwa [show 1 + k = k + 1 by omega])]
  rw [show (scanSel sel bs 1 (none, none, none)).2.2 = some bs[j] from
    scanSel_str_found sel bs 1 (none, none, none) j hj hname hlast]

/-! ### `mkBackup` case lemmas -/

theorem mkBackup_isdir (d : Dir) (p : String)
    (hg : (pathExists d p && !pathIsFile d p) = true) :
    mkBackup d p = .error (.isADirectory p) := by
  simp [mkBackup, hg]

theorem mkBackup_parse_ok (d : Dir) (p : String) (t : DateTime)
    (hg : (pathExists d p && !pathIsFile d p) = false)
    (ht : (Backup.mk p).btime = some t) :
    mkBackup d p = .ok (Backup.mk p) := by
  simp [mkBackup, hg, ht]

theorem mkBackup_parse_fail (d : Dir) (p : String)
    (hg : (pathExists d p && !pathIsFile d p) = false)
    (ht : (Backup.mk p).btime = none) :
    mkBackup d p = .error (.valueError ("time data " ++ (partitionDash (stem p)).1 ++
      " does not match format %y%m%d%H%M%S")) := by
  simp [mkBackup, hg, ht]

/-- In a directory of regular files the existence check never trips. -/
theorem exists_check_of_files (d : Dir) (p : String)
    (hfile : ∀ e ∈ d, e.isDir = false) :
    (pathExists d p && !pathIsFile d p) = false := by
  cases hl : lookupEntry d p with
  | none => simp [pathExists, hl]
  | some e =>
    have he : e ∈ d := List.mem_of_find?_eq_some hl
    simp [pathExists, pathIsFile, hl, hfile e he]

theorem mkBackup_error_shape (d : Dir) (p : String) (e : Err)
    (h : mkBackup d p = .error e) :
    (∃ q, e = .isADirectory q) ∨ (∃ m, e = .valueError m) := by
  by_cases hg : (pathExists d p && !pathIsFile d p) = true
  · rw [mkBackup_isdir d p hg] at h
    exact Or.inl ⟨p, (Except.error.injEq _ _).mp h |>.symm⟩
  · cases ht : (Backup.mk p).btime with
    | some t =>
      rw [mkBackup_parse_ok d p t (by simpa using hg) ht] at h
      cases h
    | none =>
      rw [mkBackup_parse_fail d p (by simpa using hg) ht] at h
      exact Or.inr ⟨_, (Except.error.injEq _ _).mp h |>.symm⟩

/-! ### `listBackups` behaviour -/

/-- When every matching entry constructs cleanly, enumeration yields one
backup per matching entry, in order. -/
theorem listGo_clean (d : Dir) :
    ∀ es : List Entry,
      (∀ e ∈ es, globMatch e.ename = true → mkBackup d e.ename = .ok (Backup.mk e.ename)) →
      listGo d es =
        .ok ((es.filter (fun e => globMatch e.ename)).map (fun e => Backup.mk e.ename)) := by
  intro es
  induction es with
  | nil => intro _; rfl
  | cons e es ih =>
    intro h
    have ih' := ih (fun x hx hgx => h x (List.mem_cons_of_mem e hx) hgx)
    by_cases hg : globMatch e.ename = true
    · rw [listGo, if_pos hg, h e (List.mem_cons_self e es) hg, ih']
      simp [List.filter_cons, hg]
    · rw [listGo, if_neg hg, ih']
      have hg' : globMatch e.ename = false := by simpa using hg
      simp [List.filter_cons, hg']

/-- Enumeration halts silently at the first matching entry whose
constructor raises `ValueError`: the backups before it stand, the bad
entry and everything after are dropped. -/
theorem listGo_halt (d : Dir) :
    ∀ (es : List Entry) (k : Nat) (hk : k < es.length),
      globMatch es[k].ename = true →
      (∃ m, mkBackup d (es[k].ename) = .error (.valueError m)) →
      (∀ i (hi : i < k), globMatch es[i].ename = true →
        mkBackup d (es[i].ename) = .ok (Backup.mk (es[i].ename))) →
      listGo d es =
        .ok (((es.take k).filter (fun e => globMatch e.ename)).map
          (fun e => Backup.mk e.ename)) := by
  intro es
  induction es with
  | nil => intro k hk; simp at hk
  | cons e es ih =>
    intro k hk hgk hbad hbefore
    cases k with
    | zero =>
      obtain ⟨m, hm⟩ := hbad
      simp only [List.getElem_cons_zero] at hgk hm
      rw [listGo, if_pos hgk, hm]
      simp
    | succ k =>
      have hk' : k < es.length := by simpa using hk
      have hg0 : globMatch e.ename = true ∨ globMatch e.ename = false := by
        cases globMatch e.ename <;> simp
      rcases hg0 with hg0 | hg0
      · have h0 := hbefore 0 (Nat.succ_pos k) (by simpa using hg0)
        simp only [List.getElem_cons_zero] at h0
        rw [listGo, if_pos hg0, h0]
        rw [ih k hk' (by simpa using hgk)
          (by simpa using hbad)
          (fun i hi hgi => by
            have := hbefore (i + 1) (Nat.succ_lt_succ hi) (by simpa using hgi)
            simpa using this)]
        simp [List.take_succ_cons, List.filter_cons, hg0]
      · rw [listGo, if_neg (by simp [hg0])]
        rw [ih k hk' (by simpa using hgk)
          (by simpa using hbad)
          (fun i hi hgi => by
            have := hbefore (i + 1) (Nat.succ_lt_succ hi) (by simpa using hgi)
            simpa using this)]
        simp [List.take_succ_cons, List.filter_cons, hg0]

/-- An exception other than `ValueError` raised while enumerating (the
`IsADirectoryError` from `check`) propagates out of the generator. -/
theorem listGo_propagates (d : Dir) :
    ∀ (es : List Entry) (k : Nat) (hk : k < es.length) (q : String),
      globMatch es[k].ename = true →
      mkBackup d (es[k].ename) = .error (.isADirectory q) →
      (∀ i (hi : i < k), globMatch es[i].ename = true →
        mkBackup d (es[i].ename) = .ok (Backup.mk (es[i].ename))) →
      listGo d es = .error (.isADirectory q) := by
  intro es
  induction es with
  | nil => intro k hk; simp at hk
  | cons e es ih =>
    intro k hk q hgk herr hbefore
    cases k with
    | zero =>
      simp only [List.getElem_cons_zero] at hgk herr
      rw [listGo, if_pos hgk, herr]
    | succ k =>
      have hk' : k < es.length := by simpa using hk
      have hrec := ih k hk' q (by simpa using hgk) (by simpa using herr)
        (fun i hi hgi => by
          have := hbefore (i + 1) (Nat.succ_lt_succ hi) (by simpa using hgi)
          simpa using this)
      have hg0 : globMatch e.ename = true ∨ globMatch e.ename = false := by
        cases globMatch e.ename <;> simp
      rcases hg0 with hg0 | hg0
      · have h0 := hbefore 0 (Nat.succ_pos k) (by simpa using hg0)
        simp only [List.getElem_cons_zero] at h0
        rw [listGo, if_pos hg0, h0, hrec]
      · rw [listGo, if_neg (by simp [hg0]), hrec]

/-- Any error escaping enumeration is an `IsADirectoryError`. -/
theorem listGo_error_shape (d : Dir) :
    ∀ (es : List Entry) (e : Err), listGo d es = .error e → ∃ q, e = .isADirectory q := by
  intro es
  induction es with
  | nil => intro e h; cases h
  | cons x es ih =>
    intro e h
    by_cases hg : globMatch x.ename = true
    · rw [listGo, if_pos hg] at h
      cases hmk : mkBackup d x.ename with
      | error err =>
        rw [hmk] at h
        rcases mkBackup_error_shape d x.ename err hmk with ⟨q, rfl⟩ | ⟨m, rfl⟩
        · exact ⟨q, ((Except.error.injEq _ _).mp h).symm⟩
        · cases h
      | ok b =>
        rw [hmk] at h
        cases hrest : listGo d es with
        | error err2 =>
          rw [hrest] at h
          have he : err2 = e := by simpa using h
          exact he ▸ ih err2 hrest
        | ok bs => rw [hrest] at h; cases h
    · rw [listGo, if_neg hg] at h
      exact ih e h

/-! ### Error taxonomy of each operation -/

theorem find_error_shape (d : Dir) (sel : String) (e : Err)
    (h : find d sel = .error e) :
    (∃ q, e = .isADirectory q) ∨ e = .backupNotFound sel := by
  cases hlb : listBackups d with
  | error err =>
    simp only [find, hlb] at h
    have he : err = e := by simpa using h
    exact Or.inl (he ▸ listGo_error_shape d d err hlb)
  | ok bs =>
    simp only [find, hlb] at h
    by_cases hs : sel = ""
    · rw [if_pos hs] at h
      cases hst : (scanSel sel bs 1 (none, none, none)).1 with
      | some b => rw [hst] at h; cases h
      | none =>
        rw [hst] at h
        have hbe : Err.backupNotFound sel = e := by simpa using h
        exact Or.inr hbe.symm
    · rw [if_neg hs] at h
      cases hst : (scanSel sel bs 1 (none, none, none)).2.1 with
      | some b => rw [hst] at h; cases h
      | none =>
        rw [hst] at h
        cases hst2 : (scanSel sel bs 1 (none, none, none)).2.2 with
        | some b => rw [hst2] at h; cases h
        | none =>
          rw [hst2] at h
          have hbe : Err.backupNotFound sel = e := by simpa using h
          exact Or.inr hbe.symm

theorem create_error_shape (d : Dir) (name : String) (t : DateTime) (e : Err)
    (h : create d name t = .error e) :
    (∃ q, e = .isADirectory q) ∨ (∃ m, e = .valueError m) :=
  mkBackup_error_shape d (createName name t) e h

/-! ### The handlers never raise `UnknownModeError` -/

theorem listCmd_no_unknown (w : World) (args : List String) (e : Err)
    (h : listCmd w args = .error e) : ∀ s, e ≠ .unknownMode s := by
  intro s
  cases args with
  | nil =>
    cases hlb : listBackups w.dir with
    | error err =>
      simp only [listCmd, hlb] at h
      obtain ⟨q, rfl⟩ := listGo_error_shape w.dir w.dir err hlb
      intro hcon
      subst hcon
      simp at h
    | ok bs =>
      simp only [listCmd, hlb] at h
      by_cases hbs : bs = []
      · rw [if_pos hbs] at h; cases h
      · rw [if_neg hbs] at h; cases h
  | cons a rest =>
    simp only [listCmd] at h
    intro hcon
    subst hcon
    simp at h

theorem saveBody_no_unknown (w : World) (sel : String) (e : Err)
    (h : saveCmd.saveBody w sel = .error e) : ∀ s, e ≠ .unknownMode s := by
  intro s
  cases hc : create w.dir sel w.now with
  | error err =>
    simp only [saveCmd.saveBody, hc] at h
    rcases create_error_shape w.dir sel w.now err hc with ⟨q, rfl⟩ | ⟨m, rfl⟩ <;>
      · intro hcon
        subst hcon
        simp at h
  | ok b =>
    simp only [saveCmd.saveBody, hc] at h
    cases h

theorem saveCmd_no_unknown (w : World) (args : List String) (e : Err)
    (h : saveCmd w args = .error e) : ∀ s, e ≠ .unknownMode s := by
  intro s
  match args with
  | [] => exact saveBody_no_unknown w "" e h s
  | [sel] => exact saveBody_no_unknown w sel e h s
  | a :: b :: rest =>
    simp only [saveCmd] at h
    intro hcon
    subst hcon
    simp at h

theorem loadBody_no_unknown (w : World) (sel : String) (e : Err)
    (h : loadCmd.loadBody w sel = .error e) : ∀ s, e ≠ .unknownMode s := by
  intro s
  cases hf : find w.dir sel with
  | error err =>
    simp only [loadCmd.loadBody, hf] at h
    rcases find_error_shape w.dir sel err hf with ⟨q, rfl⟩ | rfl <;>
      · intro hcon
        subst hcon
        simp at h
  | ok b =>
    simp only [loadCmd.loadBody, hf] at h
    cases h

theorem loadCmd_no_unknown (w : World) (args : List String) (e : Err)
    (h : loadCmd w args = .error e) : ∀ s, e ≠ .unknownMode s := by
  intro s
  match args with
  | [] => exact loadBody_no_unknown w "" e h s
  | [sel] => exact loadBody_no_unknown w sel e h s
  | a :: b :: rest =>
    simp only [loadCmd] at h
    intro hcon
    subst hcon
    simp at h

theorem deleteBody_no_unknown (w : World) (sel : String) (e : Err)
    (h : deleteCmd.deleteBody w sel = .error e) : ∀ s, e ≠ .unknownMode s := by
  intro s
  cases hf : find w.dir sel with
  | error err =>
    simp only [deleteCmd.deleteBody, hf] at h
    rcases find_error_shape w.dir sel err hf with ⟨q, rfl⟩ | rfl <;>
      · intro hcon
        subst hcon
        simp at h
  | ok b =>
    simp only [deleteCmd.deleteBody, hf] at h
    cases h

theorem deleteCmd_no_unknown (w : World) (args : List String) (e : Err)
    (h : deleteCmd w args = .error e) : ∀ s, e ≠ .unknownMode s := by
  intro s
  match args with
  | [] => exact deleteBody_no_unknown w "" e h s
  | [sel] => exact deleteBody_no_unknown w sel e h s
  | a :: b :: rest =>
    simp only [deleteCmd] at h
    intro hcon
    subst hcon
    simp at h

theorem quitCmd_no_unknown (w : World) (args : List String) (e : Err)
    (h : quitCmd w args = .error e) : ∀ s, e ≠ .unknownMode s := by
  intro s
  match args with
  | [] => exact fun _ => Except.noConfusion h
  | a :: rest =>
    simp only [quitCmd] at h
    intro hcon
    subst hcon
    simp at h

theorem commands_no_unknown :
    ∀ c ∈ commands, ∀ (w : World) (args : List String) (e : Err),
      c.run w args = .error e → ∀ s, e ≠ .unknownMode s := by
  intro c hc
  simp only [commands, List.mem_cons, List.not_mem_nil, or_false] at hc
  rcases hc with rfl | rfl | rfl | rfl | rfl
  · exact fun w args e h => listCmd_no_unknown w args e h
  · exact fun w args e h => saveCmd_no_unknown w args e h
  · exact fun w args e h => loadCmd_no_unknown w args e h
  · exact fun w args e h => deleteCmd_no_unknown w args e h
  · exact fun w args e h => quitCmd_no_unknown w args e h

/-! ### Dispatch characterization -/

theorem executeLoop_unknown_iff (w : World) (cmd : String) (args : List String) :
    ∀ cs : List Cmd,
      (∀ c ∈ cs, ∀ e, c.run w args = .error e → ∀ s, e ≠ .unknownMode s) →
      (executeLoop w cmd args cs = .error (.unknownMode cmd) ↔ ∀ c ∈ cs, cmd ∉ c.aliases) := by
  intro cs
  induction cs with
  | nil => intro _; simp [executeLoop]
  | cons c cs ih =>
    intro hno
    rw [executeLoop]
    by_cases hmem : cmd ∈ c.aliases
    · rw [if_pos hmem]
      constructor
      · intro h
        exact absurd rfl (hno c (List.mem_cons_self c cs) _ h cmd)
      · intro h
        exact absurd hmem (h c (List.mem_cons_self c cs))
    · rw [if_neg hmem]
      rw [ih (fun c' hc' => hno c' (List.mem_cons_of_mem c hc'))]
      constructor
      · intro h c' hc'
        rcases List.mem_cons.mp hc' with rfl | hc'
        · exact hmem
        · exact h c' hc'
      · intro h c' hc'
        exact h c' (List.mem_cons_of_mem c hc')

theorem executeLoop_first_match (w : World) (cmd : String) (args : List String) :
    ∀ (cs : List Cmd) (c : Cmd),
      cs.find? (fun c => c.aliases.contains cmd) = some c →
      executeLoop w cmd args cs = c.run w args := by
  intro cs
  induction cs with
  | nil => intro c h; cases h
  | cons c0 cs ih =>
    intro c h
    rw [List.find?_cons] at h
    cases hb : c0.aliases.contains cmd with
    | true =>
      rw [hb] at h
      have hmem : cmd ∈ c0.aliases := by simpa using hb
      rw [executeLoop, if_pos hmem, (by simpa using h : c0 = c)]
    | false =>
      rw [hb] at h
      have hmem : cmd ∉ c0.aliases := by simpa using hb
      rw [executeLoop, if_neg hmem]
      exact ih c h

/-! ### Lexicographic order of the on-disk timestamp format -/

theorem lexLt_pad2_lt {a b : Nat} (ha : a < 100) (hb : b < 100) (hab : a < b)
    (r1 r2 : List Char) :
    List.Lex (fun x y : Char => x < y) ((pad2 a).data ++ r1) ((pad2 b).data ++ r2) := by
  show List.Lex (fun x y : Char => x < y)
    (Nat.digitChar (a / 10) :: Nat.digitChar (a % 10) :: r1)
    (Nat.digitChar (b / 10) :: Nat.digitChar (b % 10) :: r2)
  by_cases h : a / 10 = b / 10
  · rw [h]
    exact .cons (.rel (digitChar_lt_digitChar (by omega) (by omega) (by omega)))
  · exact .rel (digitChar_lt_digitChar (by omega) (by omega)
      (lt_of_le_of_ne (Nat.div_le_div_right (le_of_lt hab)) h))

theorem lexLt_pad2_eq {a : Nat} (r1 r2 : List Char)
    (h : List.Lex (fun x y : Char => x < y) r1 r2) :
    List.Lex (fun x y : Char => x < y) ((pad2 a).data ++ r1) ((pad2 a).data ++ r2) :=
  .cons (.cons h)

theorem strftimeFile_data_assoc (t : DateTime) :
    (strftimeFile t).data =
      (pad2 (t.year % 100)).data ++ ((pad2 t.month).data ++ ((pad2 t.day).data ++
      ((pad2 t.hour).data ++ ((pad2 t.minute).data ++ ((pad2 t.second).data ++ []))))) := by
  simp [strftimeFile]

/-- The compact timestamp encoding is lexicographically monotone in the
chronological order, for well-formed times whose years share a century and
which differ at whole-second resolution. -/
theorem strftimeFile_lt (t1 t2 : DateTime) (hv1 : t1.Valid) (hv2 : t2.Valid)
    (hc : t1.year / 100 = t2.year / 100)
    (hlt : chronoLt t1.truncSec t2.truncSec) :
    strftimeFile t1 < strftimeFile t2 := by
  obtain ⟨_, _, _, hm1, _, hd1, hh1, hmi1, hs1, _⟩ := hv1
  obtain ⟨_, _, _, hm2, _, hd2, hh2, hmi2, hs2, _⟩ := hv2
  have hd1' : t1.day ≤ 31 := le_trans hd1 (daysInMonth_le _ _)
  have hd2' : t2.day ≤ 31 := le_trans hd2 (daysInMonth_le _ _)
  rw [String.lt_iff_toList_lt]
  show List.Lex (fun x y : Char => x < y) (strftimeFile t1).data (strftimeFile t2).data
  rw [strftimeFile_data_assoc, strftimeFile_data_assoc]
  simp only [chronoLt, DateTime.truncSec, Nat.lt_irrefl, and_false, or_false] at hlt
  rcases hlt with h | ⟨h1, hlt⟩
  · exact lexLt_pad2_lt (Nat.mod_lt _ (by norm_num)) (Nat.mod_lt _ (by norm_num))
      (by omega) _ _
  · rw [show t1.year % 100 = t2.year % 100 from by rw [h1]]
    apply lexLt_pad2_eq
    rcases hlt with h | ⟨h2, hlt⟩
    · exact lexLt_pad2_lt (by omega) (by omega) h _ _
    · rw [h2]
      apply lexLt_pad2_eq
      rcases hlt with h | ⟨h3, hlt⟩
      · exact lexLt_pad2_lt (by omega) (by omega) h _ _
      · rw [h3]
        apply lexLt_pad2_eq
        rcases hlt with h | ⟨h4, hlt⟩
        · exact lexLt_pad2_lt (by omega) (by omega) h _ _
        · rw [h4]
          apply lexLt_pad2_eq
          rcases hlt with h | ⟨h5, hlt⟩
          · exact lexLt_pad2_lt (by omega) (by omega) h _ _
          · rw [h5]
            apply lexLt_pad2_eq
            exact lexLt_pad2_lt (by omega) (by omega) hlt _ _

/-! ### Clean directories list completely -/

/-- In a directory whose glob-matching entries are regular files with
parsable timestamps, every matching name constructs cleanly (the
existence check sees a file or nothing, and the timestamp parses). -/
theorem mkBackup_ok_of_clean (d : Dir)
    (hclean : ∀ e ∈ d, globMatch e.ename = true →
      (e.isDir = false ∧ (Backup.mk e.ename).btime.isSome))
    (p : String) (hp : globMatch p = true) (ht : (Backup.mk p).btime.isSome) :
    mkBackup d p = .ok (Backup.mk p) := by
  obtain ⟨t, ht'⟩ := Option.isSome_iff_exists.mp ht
  apply mkBackup_parse_ok d p t _ ht'
  cases hl : lookupEntry d p with
  | none => simp [pathExists, hl]
  | some e =>
    have he : e ∈ d := List.mem_of_find?_eq_some hl
    have hname : e.ename = p := by
      have := List.find?_some hl
      simpa using this
    have := (hclean e he (by rwa [hname])).1
    simp [pathExists, pathIsFile, hl, this]

/-- Full listing of a clean directory: one backup per matching entry. -/
theorem listBackups_clean (d : Dir)
    (hclean : ∀ e ∈ d, globMatch e.ename = true →
      (e.isDir = false ∧ (Backup.mk e.ename).btime.isSome)) :
    listBackups d =
      .ok ((d.filter (fun e => globMatch e.ename)).map (fun e => Backup.mk e.ename)) :=
  listGo_clean d d (fun e he hg =>
    mkBackup_ok_of_clean d hclean e.ename hg (hclean e he hg).2)

theorem writeFile_mem_cases (d : Dir) (n : String) (e : Entry)
    (h : e ∈ writeFile d n) : e ∈ d ∨ e = Entry.mk n false := by
  rw [writeFile] at h
  by_cases hany : List.any d (fun x => x.ename == n) = true
  · rw [if_pos hany] at h
    obtain ⟨x, hx, hxe⟩ := List.mem_map.mp h
    by_cases hn : x.ename = n
    · right; rw [← hxe]; simp [hn]
    · left
      rw [← hxe]
      simp only [show (x.ename == n) = false from by simpa using hn, Bool.false_eq_true,
        if_false]
      exact hx
  · rw [if_neg hany] at h
    rcases List.mem_append.mp h with h | h
    · exact Or.inl h
    · exact Or.inr (by simpa using h)

theorem writeFile_self_mem (d : Dir) (n : String) : Entry.mk n false ∈ writeFile d n := by
  rw [writeFile]
  by_cases hany : List.any d (fun x => x.ename == n) = true
  · rw [if_pos hany]
    obtain ⟨x, hx, hxn⟩ := List.any_eq_true.mp hany
    refine List.mem_map.mpr ⟨x, hx, ?_⟩
    simp [show x.ename = n from by simpa using hxn]
  · rw [if_neg hany]
    exact List.mem_append_right _ (by simp)

/-- Writing a parsable `.sl2` file into a clean directory keeps it clean. -/
theorem writeFile_clean (d : Dir) (n : String)
    (hclean : ∀ e ∈ d, globMatch e.ename = true →
      (e.isDir = false ∧ (Backup.mk e.ename).btime.isSome))
    (ht : (Backup.mk n).btime.isSome) :
    ∀ e ∈ writeFile d n, globMatch e.ename = true →
      (e.isDir = false ∧ (Backup.mk e.ename).btime.isSome) := by
  intro e he hg
  rcases writeFile_mem_cases d n e he with he' | rfl
  · exact hclean e he' hg
  · exact ⟨rfl, ht⟩

/-! ## Claim theorems -/

/-- C1: for every directory state and non-empty selector that is both the
rendered 1-based enumeration index of some backup and the display name of
some (other) backup, `find` returns the index-matched backup, not the
name-matched one. -/
theorem c1_find_prefers_index_match (d : Dir) (bs : List Backup) (sel : String)
    (h : listBackups d = .ok bs) (hsel : sel ≠ "")
    (j : Nat) (hj : j < bs.length) (hidx : toString (j + 1) = sel)
    (_hname : ∃ b ∈ bs, b.display = sel) :
    find d sel = .ok bs[j] :=
  find_index_match d bs h sel hsel j hj hidx

/-- C1 witness: a backup named `2` sits in third position while the second
enumerated backup has index string `2`; selector `2` resolves by index. -/
theorem c1_witness :
    find [Entry.mk "990101000000-a.sl2" false, Entry.mk "990102000000-b.sl2" false,
      Entry.mk "990103000000-2.sl2" false] "2" = .ok (Backup.mk "990102000000-b.sl2") := by
  have h := c1_find_prefers_index_match
    [Entry.mk "990101000000-a.sl2" false, Entry.mk "990102000000-b.sl2" false,
      Entry.mk "990103000000-2.sl2" false]
    [Backup.mk "990101000000-a.sl2", Backup.mk "990102000000-b.sl2",
      Backup.mk "990103000000-2.sl2"]
    "2" rfl (by decide) 1 (by decide) rfl
    ⟨Backup.mk "990103000000-2.sl2", by decide, rfl⟩
  simpa using h

/-- C4: with the empty selector, `find` returns the backup the generator
stopped on (the last enumerated backup), which need not be the most
recent by timestamp, and fails with `BackupNotFoundError` when
enumeration produces no backups. -/
theorem c4_find_empty_selector (d : Dir) (bs : List Backup)
    (h : listBackups d = .ok bs) :
    (bs = [] → find d "" = .error (.backupNotFound "")) ∧
    (∀ b, bs.getLast? = some b → find d "" = .ok b) ∧
    (∃ (d2 : Dir) (b1 b2 : Backup) (t1 t2 : DateTime),
      listBackups d2 = .ok [b1, b2] ∧ find d2 "" = .ok b2 ∧
      b1.btime = some t1 ∧ b2.btime = some t2 ∧ chronoLt t2 t1) := by
  refine ⟨?_, ?_, ?_⟩
  · intro hbs
    subst hbs
    rw [find_empty_sel d [] h]
    rfl
  · intro b hb
    rw [find_empty_sel d bs h, hb]
  · exact ⟨[Entry.mk "990202000000.sl2" false, Entry.mk "990101000000.sl2" false],
      Backup.mk "990202000000.sl2", Backup.mk "990101000000.sl2",
      ⟨1999, 2, 2, 0, 0, 0, 0⟩, ⟨1999, 1, 1, 0, 0, 0, 0⟩,
      rfl, rfl, rfl, rfl, by decide⟩

/-- C4 witness: the empty directory fails with `BackupNotFoundError('')`,
and a two-entry directory resolves the empty selector to the second
(last-enumerated) backup. -/
theorem c4_witness :
    find [] "" = .error (.backupNotFound "") ∧
    find [Entry.mk "990202000000.sl2" false, Entry.mk "990101000000.sl2" false] "" =
      .ok (Backup.mk "990101000000.sl2") := by
  constructor
  · exact (c4_find_empty_selector [] [] rfl).1 rfl
  · exact (c4_find_empty_selector
      [Entry.mk "990202000000.sl2" false, Entry.mk "990101000000.sl2" false]
      [Backup.mk "990202000000.sl2", Backup.mk "990101000000.sl2"] rfl).2.1
      (Backup.mk "990101000000.sl2") rfl

/-- C10: with a non-empty selector, no index match, and at least two name
matches, `find` returns the last name match in enumeration order (each
later match overwrites the earlier one). -/
theorem c10_find_last_name_match (d : Dir) (bs : List Backup) (sel : String)
    (h : listBackups d = .ok bs) (hsel : sel ≠ "")
    (hnoidx : ∀ k, k < bs.length → toString (k + 1) ≠ sel)
    (j : Nat) (hj : j < bs.length) (hname : bs[j].display = sel)
    (hlast : ∀ k (hk : k < bs.length), j < k → bs[k].display ≠ sel)
    (_hmulti : ∃ j2, ∃ hj2 : j2 < bs.length, j2 < j ∧ bs[j2].display = sel) :
    find d sel = .ok bs[j] :=
  find_name_match d bs h sel hsel hnoidx j hj hname hlast

/-- C10 witness: two backups both display `x`; `find "x"` returns the
second (last enumerated) one. -/
theorem c10_witness :
    find [Entry.mk "990101000000-x.sl2" false, Entry.mk "990102000000-x.sl2" false] "x" =
      .ok (Backup.mk "990102000000-x.sl2") := by
  have h := c10_find_last_name_match
    [Entry.mk "990101000000-x.sl2" false, Entry.mk "990102000000-x.sl2" false]
    [Backup.mk "990101000000-x.sl2", Backup.mk "990102000000-x.sl2"]
    "x" rfl (by decide)
    (by
      intro k hk
      have hk2 : k < 2 := by simpa using hk
      interval_cases k <;> decide)
    1 (by decide) rfl
    (by
      intro k hk hk1
      have hk2 : k < 2 := by simpa using hk
      omega)
    ⟨0, by decide, by decide, rfl⟩
  simpa using h

/-- C5: in a directory whose entries all match the save-archive suffix
and are regular files, enumeration yields one backup per entry, in
order, up to and not including the first entry whose timestamp segment
fails to parse, and halts silently there (it neither skips the entry nor
fails the listing). -/
theorem c5_listing_halts_on_first_unparsable (d : Dir)
    (hmatch : ∀ e ∈ d, globMatch e.ename = true)
    (hfile : ∀ e ∈ d, e.isDir = false)
    (k : Nat) (hk : k < d.length)
    (hbefore : ∀ i (hi : i < k), (Backup.mk d[i].ename).btime.isSome)
    (hfail : (Backup.mk d[k].ename).btime = none) :
    listBackups d = .ok ((d.take k).map (fun e => Backup.mk e.ename)) := by
  have hres := listGo_halt d d k hk
    (hmatch d[k] (List.getElem_mem hk))
    ⟨_, mkBackup_parse_fail d _ (exists_check_of_files d _ hfile) hfail⟩
    (fun i hi => by
      intro _
      obtain ⟨t, ht⟩ := Option.isSome_iff_exists.mp (hbefore i hi)
      exact mkBackup_parse_ok d _ t (exists_check_of_files d _ hfile) ht)
  rw [listBackups, hres, List.filter_eq_self.mpr
    (fun e he => hmatch e (List.take_subset k d he))]

/-- C5 witness: a three-entry directory whose middle entry has an
unparsable stem lists exactly the first entry. -/
theorem c5_witness :
    listBackups [Entry.mk "990101000000-a.sl2" false, Entry.mk "junk.sl2" false,
      Entry.mk "990103000000-c.sl2" false] = .ok [Backup.mk "990101000000-a.sl2"] := by
  have h := c5_listing_halts_on_first_unparsable
    [Entry.mk "990101000000-a.sl2" false, Entry.mk "junk.sl2" false,
      Entry.mk "990103000000-c.sl2" false]
    (by decide)
    (by decide)
    1 (by decide)
    (by
      intro i hi
      have h0 : i = 0 := by omega
      subst h0
      simp only [List.getElem_cons_zero]
      decide)
    (by decide)
  simpa using h

/-- C9: a glob-matching entry that is a directory makes enumeration
propagate `IsADirectoryError` to the caller once reached (unlike a
timestamp-parse failure, which halts silently). -/
theorem c9_listing_propagates_isdir (d : Dir)
    (hnd : (d.map Entry.ename).Nodup)
    (k : Nat) (hk : k < d.length)
    (hdir : d[k].isDir = true)
    (hgk : globMatch d[k].ename = true)
    (hbefore : ∀ i (hi : i < k), globMatch d[i].ename = true →
      (d[i].isDir = false ∧ (Backup.mk d[i].ename).btime.isSome)) :
    listBackups d = .error (.isADirectory d[k].ename) := by
  apply listGo_propagates d d k hk _ hgk
  · apply mkBackup_isdir
    have hl := lookupEntry_nodup d hnd k hk
    simp [pathExists, pathIsFile, hl, hdir]
  · intro i hi hgi
    have hl := lookupEntry_nodup d hnd i (Nat.lt_trans hi hk)
    obtain ⟨hf, ht⟩ := hbefore i hi hgi
    obtain ⟨t, ht2⟩ := Option.isSome_iff_exists.mp ht
    apply mkBackup_parse_ok d _ t _ ht2
    simp [pathExists, pathIsFile, hl, hf]

/-- C9 witness: a directory entry named like a backup in second position
aborts the listing with `IsADirectoryError`, while the unparsable-name
case of the same shape halts silently (contrast with C5). -/
theorem c9_witness :
    listBackups [Entry.mk "990101000000-a.sl2" false, Entry.mk "sub.sl2" true,
      Entry.mk "990103000000-c.sl2" false] = .error (.isADirectory "sub.sl2") := by
  have h := c9_listing_propagates_isdir
    [Entry.mk "990101000000-a.sl2" false, Entry.mk "sub.sl2" true,
      Entry.mk "990103000000-c.sl2" false]
    (by decide)
    1 (by decide) (by decide) (by decide)
    (by
      intro i hi hg
      have h0 : i = 0 := by omega
      subst h0
      simp only [List.getElem_cons_zero]
      exact ⟨by decide, by decide⟩)
  simpa using h

/-- C7: Backup construction fails with the not-a-regular-file error
(`IsADirectoryError(path)`) when the path exists and is not a regular
file; otherwise it fails with the strptime `ValueError` exactly when the
timestamp segment of the stem does not parse; and it succeeds when the
path does not exist and the timestamp segment parses. -/
theorem c7_backup_construction_cases (d : Dir) (p : String) :
    (pathExists d p = true → pathIsFile d p = false →
      mkBackup d p = .error (.isADirectory p)) ∧
    ((pathExists d p = true → pathIsFile d p = true) →
      strptimeFile (partitionDash (stem p)).1 = none →
      mkBackup d p = .error (.valueError ("time data " ++ (partitionDash (stem p)).1 ++
        " does not match format %y%m%d%H%M%S"))) ∧
    (pathExists d p = false → ∀ t, strptimeFile (partitionDash (stem p)).1 = some t →
      mkBackup d p = .ok (Backup.mk p)) := by
  refine ⟨?_, ?_, ?_⟩
  · intro he hf
    exact mkBackup_isdir d p (by simp [he, hf])
  · intro hg ht
    apply mkBackup_parse_fail d p _ ht
    cases hex : pathExists d p with
    | false => simp [hex]
    | true => simp [hex, hg hex]
  · intro he t ht
    exact mkBackup_parse_ok d p t (by simp [he]) ht

/-- C7 witness: the three cases at concrete inputs --- an existing
directory path, a fresh path with unparsable stem, and a fresh path with
a parsable timestamp. -/
theorem c7_witness :
    mkBackup [Entry.mk "sub.sl2" true] "sub.sl2" = .error (.isADirectory "sub.sl2") ∧
    mkBackup [] "junk.sl2" = .error (.valueError
      ("time data " ++ (partitionDash (stem "junk.sl2")).1 ++
        " does not match format %y%m%d%H%M%S")) ∧
    mkBackup [] "990101000000-a.sl2" = .ok (Backup.mk "990101000000-a.sl2") := by
  refine ⟨?_, ?_, ?_⟩
  · exact (c7_backup_construction_cases [Entry.mk "sub.sl2" true] "sub.sl2").1
      (by decide) (by decide)
  · exact (c7_backup_construction_cases [] "junk.sl2").2.1 (by decide) (by decide)
  · exact (c7_backup_construction_cases [] "990101000000-a.sl2").2.2 (by decide)
      ⟨1999, 1, 1, 0, 0, 0, 0⟩ (by decide)

/-- C3 counterexample: the claim is false as stated over all valid
`(name, time)` pairs.  At the well-formed input `1900-01-01 00:00:00`,
`create` writes the two-digit year as `00`, so the file is
`000101000000-x.sl2`; re-listing an otherwise empty directory succeeds
and reaches the file, but the strptime pivot (00-68 means 2000-2068)
reads the year back as 2000: no backup in the listing carries the input
time truncated to seconds --- the round trip returns 2000-01-01
instead. -/
theorem c3_counterexample :
    DateTime.Valid ⟨1900, 1, 1, 0, 0, 0, 0⟩ ∧
    create [] "x" ⟨1900, 1, 1, 0, 0, 0, 0⟩ = .ok (Backup.mk "000101000000-x.sl2") ∧
    listBackups (writeFile [] "000101000000-x.sl2") =
      .ok [Backup.mk "000101000000-x.sl2"] ∧
    (Backup.mk "000101000000-x.sl2").bname = "x" ∧
    (Backup.mk "000101000000-x.sl2").btime = some ⟨2000, 1, 1, 0, 0, 0, 0⟩ ∧
    ¬ ∃ b2, b2 ∈ [Backup.mk "000101000000-x.sl2"] ∧
        b2.btime = some (DateTime.truncSec ⟨1900, 1, 1, 0, 0, 0, 0⟩) :=
  ⟨by decide, rfl, rfl, rfl, rfl, by decide⟩

/-- C3 (amended): creating a backup with `create(name, time)`, capturing
the save file into it (`backup.save`), and re-listing the directory
yields a backup whose name equals the input name and whose creation time
equals the input time truncated to seconds, provided the year lies in
the window 1969-2068 that the two-digit-year format round-trips
faithfully (outside it the strptime pivot returns a different year ---
see the counterexample), and the starting directory is clean (its
glob-matching entries are regular files with parsable stems), so the new
file is reached during enumeration. -/
theorem c3_create_capture_relist_roundtrip (d : Dir) (name : String) (t : DateTime)
    (hv : t.Valid) (hy1 : 1969 ≤ t.year) (hy2 : t.year ≤ 2068)
    (hclean : ∀ e ∈ d, globMatch e.ename = true →
      (e.isDir = false ∧ (Backup.mk e.ename).btime.isSome)) :
    ∃ b, create d name t = .ok b ∧
      ∃ bs, listBackups (writeFile d b.path) = .ok bs ∧
        ∃ b2, b2 ∈ bs ∧ b2.path = b.path ∧ b2.bname = name ∧
          b2.btime = some t.truncSec := by
  have htb : (Backup.mk (createName name t)).btime = some t.truncSec :=
    btime_createName name t hv hy1 hy2
  have htb' : (Backup.mk (createName name t)).btime.isSome = true := by rw [htb]; rfl
  have hglob : globMatch (createName name t) = true := by
    rw [createName_eq]; exact globMatch_append_sl2 _
  have hok : create d name t = .ok (Backup.mk (createName name t)) := by
    rw [create]
    exact mkBackup_ok_of_clean d hclean _ hglob htb'
  refine ⟨Backup.mk (createName name t), hok, ?_⟩
  have hclean2 := writeFile_clean d (createName name t) hclean htb'
  refine ⟨_, listBackups_clean (writeFile d (createName name t)) hclean2, ?_⟩
  refine ⟨Backup.mk (createName name t), ?_, rfl, bname_createName name t hv, htb⟩
  refine List.mem_map.mpr ⟨Entry.mk (createName name t) false, ?_, rfl⟩
  exact List.mem_filter.mpr ⟨writeFile_self_mem d (createName name t), hglob⟩

/-- C3 witness: `create("checkpoint", 2025-02-03 04:05:06.000007)` into an
empty directory, captured and re-listed, shows name `checkpoint` and the
time truncated to whole seconds. -/
theorem c3_witness :
    ∃ b, create [] "checkpoint" ⟨2025, 2, 3, 4, 5, 6, 7⟩ = .ok b ∧
      ∃ bs, listBackups (writeFile [] b.path) = .ok bs ∧
        ∃ b2, b2 ∈ bs ∧ b2.path = b.path ∧ b2.bname = "checkpoint" ∧
          b2.btime = some (DateTime.truncSec ⟨2025, 2, 3, 4, 5, 6, 7⟩) :=
  c3_create_capture_relist_roundtrip [] "checkpoint" ⟨2025, 2, 3, 4, 5, 6, 7⟩
    (by decide) (by decide) (by decide) (by decide)

/-- C8 counterexample: the claim is false as stated.  Two chronologically
ordered, well-formed timestamps whose compact encodings do not sort
lexicographically: crossing the 1999→2000 boundary reverses the
two-digit-year encoding order (`991231235959` vs `000101000000`), and a
sub-second difference disappears entirely in the encoding. -/
theorem c8_counterexample :
    chronoLt ⟨1999, 12, 31, 23, 59, 59, 0⟩ ⟨2000, 1, 1, 0, 0, 0, 0⟩ ∧
    DateTime.Valid ⟨1999, 12, 31, 23, 59, 59, 0⟩ ∧
    DateTime.Valid ⟨2000, 1, 1, 0, 0, 0, 0⟩ ∧
    ¬ strftimeFile ⟨1999, 12, 31, 23, 59, 59, 0⟩ < strftimeFile ⟨2000, 1, 1, 0, 0, 0, 0⟩ ∧
    chronoLt ⟨2025, 1, 1, 0, 0, 0, 0⟩ ⟨2025, 1, 1, 0, 0, 0, 1⟩ ∧
    strftimeFile ⟨2025, 1, 1, 0, 0, 0, 0⟩ = strftimeFile ⟨2025, 1, 1, 0, 0, 0, 1⟩ := by
  refine ⟨by decide, by decide, by decide, ?_, by decide, by decide⟩
  intro hlex
  rw [String.lt_iff_toList_lt] at hlex
  have hnot : ¬ List.Lex (fun x y : Char => x < y)
      (strftimeFile ⟨1999, 12, 31, 23, 59, 59, 0⟩).data
      (strftimeFile ⟨2000, 1, 1, 0, 0, 0, 0⟩).data := by decide
  exact hnot hlex

/-- C8 (amended): for well-formed timestamps whose years lie in the same
century (so the two-digit year is order-faithful) and which differ after
truncation to seconds (the format's resolution), the compact on-disk
encoding of the earlier timestamp sorts lexicographically before that of
the later one. -/
theorem c8_lex_sorts_chronologically_amended (t1 t2 : DateTime)
    (hv1 : t1.Valid) (hv2 : t2.Valid)
    (hcentury : t1.year / 100 = t2.year / 100)
    (hlt : chronoLt t1.truncSec t2.truncSec) :
    strftimeFile t1 < strftimeFile t2 :=
  strftimeFile_lt t1 t2 hv1 hv2 hcentury hlt

/-- C8 witness: one second apart within the same century. -/
theorem c8_witness :
    strftimeFile ⟨2025, 2, 3, 4, 5, 6, 0⟩ < strftimeFile ⟨2025, 2, 3, 4, 5, 7, 0⟩ :=
  c8_lex_sorts_chronologically_amended ⟨2025, 2, 3, 4, 5, 6, 0⟩ ⟨2025, 2, 3, 4, 5, 7, 0⟩
    (by decide) (by decide) (by decide) (by decide)

/-- C6: `execute` fails with `UnknownModeError(cmd)` exactly when no
registered command's alias set contains `cmd`; otherwise it invokes the
first command, in registry declaration order, whose alias set contains
`cmd`, and its outcome (result string or failure) is passed through
unchanged. -/
theorem c6_execute_dispatch (w : World) (cmd : String) (args : List String) :
    (execute w cmd args = .error (.unknownMode cmd) ↔ ∀ c ∈ commands, cmd ∉ c.aliases) ∧
    (∀ c : Cmd, commands.find? (fun c2 => c2.aliases.contains cmd) = some c →
      execute w cmd args = c.run w args) := by
  constructor
  · exact executeLoop_unknown_iff w cmd args commands
      (fun c hc e he s => commands_no_unknown c hc w args e he s)
  · intro c hc
    exact executeLoop_first_match w cmd args commands c hc

/-- C6 witness: an unregistered token fails with `UnknownModeError`, and
the alias `ls` dispatches to the `list` handler. -/
theorem c6_witness :
    execute ⟨[], none, ⟨2025, 1, 1, 0, 0, 0, 0⟩⟩ "bogus" [] =
      .error (.unknownMode "bogus") ∧
    execute ⟨[], none, ⟨2025, 1, 1, 0, 0, 0, 0⟩⟩ "ls" [] =
      listCmd ⟨[], none, ⟨2025, 1, 1, 0, 0, 0, 0⟩⟩ [] := by
  constructor
  · exact (c6_execute_dispatch ⟨[], none, ⟨2025, 1, 1, 0, 0, 0, 0⟩⟩ "bogus" []).1.mpr
      (by decide)
  · exact (c6_execute_dispatch ⟨[], none, ⟨2025, 1, 1, 0, 0, 0, 0⟩⟩ "ls" []).2
      ⟨["list", "ls"], listCmd⟩ rfl

/-- C2: `execute_safe` never propagates a failure: a successful `execute`
passes its result through, and any failure becomes the incoming world
paired with the string built from the error kind and its details
(`': '.join((type(err).__name__, *map(str, err.args)))`).  In particular
the empty token list and an unknown first token fail with
`UnknownModeError`, and a wrong argument count fails with `TypeError`,
all converted to strings. -/
theorem c2_execute_safe_never_raises (w : World) (argv : List String) :
    (∀ r, executeArgv w argv = .ok r → executeSafe w argv = r) ∧
    (∀ e, executeArgv w argv = .error e → executeSafe w argv =
      (w, String.intercalate ": " (e.errName :: e.errArgs))) ∧
    executeArgv w [] = .error (.unknownMode "") ∧
    (∀ c args2, (∀ c2 ∈ commands, c ∉ c2.aliases) →
      executeArgv w (c :: args2) = .error (.unknownMode c)) ∧
    (∀ a b rest, executeArgv w ("load" :: a :: b :: rest) = .error (.typeError
      ("load() takes from 1 to 2 positional arguments but " ++
        toString ((a :: b :: rest).length + 1) ++ " were given"))) := by
  refine ⟨?_, ?_, ?_, ?_, ?_⟩
  · intro r hr
    rw [executeSafe, hr]
  · intro e he
    rw [executeSafe, he]
    rfl
  · rfl
  · intro c args2 hno
    show execute w c args2 = _
    exact (executeLoop_unknown_iff w c args2 commands
      (fun c2 hc2 e he s => commands_no_unknown c2 hc2 w args2 e he s)).mpr hno
  · intro a b rest
    rfl

/-- C2 witness: a bad command token yields the composed error string and
leaves the world untouched. -/
theorem c2_witness :
    executeSafe ⟨[], none, ⟨2025, 1, 1, 0, 0, 0, 0⟩⟩ ["bogus"] =
      (⟨[], none, ⟨2025, 1, 1, 0, 0, 0, 0⟩⟩, "UnknownModeError: bogus") := by
  have h := c2_execute_safe_never_raises ⟨[], none, ⟨2025, 1, 1, 0, 0, 0, 0⟩⟩ ["bogus"]
  have h4 := h.2.2.2.1 "bogus" [] (by decide)
  have h2 := h.2.1 _ h4
  exact h2.trans (by decide)

end DSB
